import Mathlib

/-!
Verification development for `ReferenceClass`
(src/src/models/reference_class.py).

The module performs projected gradient descent over a batched weight
tensor of shape [O, P, D] (O observations, P predictors, D features),
tracks a best-so-far (weight, error) pair per (observation, predictor)
when a validation split exists, and finally reduces to one selector per
observation by an argmin over the predictor axis on the evaluation
split.

Tensors are embedded as functions out of `Fin`:
an error matrix [O, P] is `Fin O → Fin P → ℚ` and a weight tensor
[O, P, D] is `Fin O → Fin P → Fin D → ℚ`.  Rationals stand for the
real-valued tensor entries; torch booleans multiplied into floats are
embedded through `b2q`.  The collaborators that live outside this
repository (`LinearModel.proj_grad`, `LinearModel.conditional_one_rate`,
the dataset objects) are opaque parameters constrained only by their
type, per the contracts of the spec.
-/

namespace RefClass

/-- Cast of a torch boolean tensor entry into the float it multiplies to:
`True ↦ 1`, `False ↦ 0`. -/
def b2q (b : Bool) : ℚ := if b then 1 else 0

/-- Error-rate matrix of shape [num observations, num predictors]. -/
abbrev ErrM (O P : ℕ) := Fin O → Fin P → ℚ

/-- Weight tensor of shape [num observations, num predictors, dim sample]. -/
abbrev WtM (O P D : ℕ) := Fin O → Fin P → Fin D → ℚ

/-- Matrix transpose, embedding `tensor.t()`. -/
def transposeM {a b : ℕ} (m : Fin a → Fin b → ℚ) : Fin b → Fin a → ℚ :=
  fun i j => m j i

/-- Embedding of `ReferenceClass.pairwise_select`
(reference_class.py lines 250-278).  The source computes
`indices = curr_error < min_error`, then
`min_error * ~indices + curr_error * indices` and
`min_weight * ~indices.unsqueeze(-1) + curr_weight * indices.unsqueeze(-1)`;
the boolean mask multiplies as 0/1 and `unsqueeze(-1)` broadcasts the
mask over the trailing feature dimension.  Returns
`(min_weight, min_error)` in that order, as the source does.
The Python function allocates fresh tensors (`*`, `+`, `~` are all
out-of-place) and rebinds only local names, so it has no side effects on
its arguments; the embedding is accordingly a pure function. -/
def pairwise_select {O P D : ℕ} (curr_error min_error : ErrM O P)
    (curr_weight min_weight : WtM O P D) : WtM O P D × ErrM O P :=
  let indices : Fin O → Fin P → Bool :=
    fun o p => decide (curr_error o p < min_error o p)
  let min_error' : ErrM O P :=
    fun o p => min_error o p * b2q (!(indices o p)) + curr_error o p * b2q (indices o p)
  let min_weight' : WtM O P D :=
    fun o p d => min_weight o p d * b2q (!(indices o p)) + curr_weight o p d * b2q (indices o p)
  (min_weight', min_error')

/-- The merge as the spec words it (section 4.4): a `where`-select on the
mask `improved = current_error < best_error`, with no arithmetic
blending.  Stated separately so that the refinement between the source's
mask-arithmetic form and the spec's `where` form is a theorem, not a
definition. -/
def pairwise_select_spec {O P D : ℕ} (curr_error min_error : ErrM O P)
    (curr_weight min_weight : WtM O P D) : WtM O P D × ErrM O P :=
  (fun o p d => if curr_error o p < min_error o p then curr_weight o p d else min_weight o p d,
   fun o p => if curr_error o p < min_error o p then curr_error o p else min_error o p)

/-- Helper: the error component returned by one merge never exceeds the
`min_error` passed in. -/
theorem pairwise_select_error_le {O P D : ℕ} (ce me : ErrM O P)
    (cw mw : WtM O P D) (o : Fin O) (p : Fin P) :
    (pairwise_select ce me cw mw).2 o p ≤ me o p := by
  unfold pairwise_select
  by_cases h : ce o p < me o p
  · simp only [decide_eq_true h, b2q, Bool.not_true, if_neg, if_pos,
      Bool.false_eq_true, if_false, if_true, mul_zero, mul_one, zero_add, add_zero]
    exact le_of_lt h
  · simp only [decide_eq_false h, b2q, Bool.not_false, if_neg, if_pos,
      Bool.false_eq_true, if_false, if_true, mul_zero, mul_one, zero_add, add_zero]
    exact le_refl _

/-- C2: `pairwise_select` returns exactly the pair
`(where(curr_error < min_error, curr_weight, min_weight),
  where(curr_error < min_error, curr_error, min_error))` —
strict less-than, equal errors keep the prior best, and no entry is ever
blended: each output entry is one of the two corresponding inputs.
Purity holds by construction of the embedding (the source allocates new
tensors and never writes its arguments in place). -/
theorem pairwise_select_eq_where {O P D : ℕ} (curr_error min_error : ErrM O P)
    (curr_weight min_weight : WtM O P D) :
    pairwise_select curr_error min_error curr_weight min_weight =
      pairwise_select_spec curr_error min_error curr_weight min_weight := by
  unfold pairwise_select pairwise_select_spec
  refine Prod.ext ?_ ?_
  · funext o p d
    by_cases h : curr_error o p < min_error o p
    · simp [h, b2q]
    · simp [h, b2q]
  · funext o p
    by_cases h : curr_error o p < min_error o p
    · simp [h, b2q]
    · simp [h, b2q]

/-- Concrete current-error matrix used for closed-form witnesses. -/
def ceW : ErrM 1 1 := fun _ _ => 0

/-- Concrete best-error matrix used for closed-form witnesses. -/
def meW : ErrM 1 1 := fun _ _ => 1

/-- Concrete current-weight tensor used for closed-form witnesses. -/
def cwW : WtM 1 1 1 := fun _ _ _ => 2

/-- Concrete best-weight tensor used for closed-form witnesses. -/
def mwW : WtM 1 1 1 := fun _ _ _ => 3

/-- Witness for C2 at concrete tensors. -/
theorem pairwise_select_eq_where_witness :
    pairwise_select ceW meW cwW mwW = pairwise_select_spec ceW meW cwW mwW :=
  pairwise_select_eq_where ceW meW cwW mwW

/-- One split of the dataset: `dataset[:]` yields
`(labels [n, P], features [n, D])`. -/
structure SplitData (n P D : ℕ) where
  labels : Fin n → Fin P → ℚ
  features : Fin n → Fin D → ℚ

/-- Contract of `LinearModel.proj_grad` (external collaborator, spec
section 6): from the current weights and a `(features, labels)` batch it
produces a gradient tensor matching the weight shape.  The sample count
`n` varies with the split, hence the leading quantifier. -/
abbrev ProjGradFn (O P D : ℕ) :=
  ∀ n : ℕ, WtM O P D → (Fin n → Fin D → ℚ) → (Fin P → Fin n → ℚ) → WtM O P D

/-- Contract of `LinearModel.conditional_one_rate` (external
collaborator, spec section 6): from weights and a `(features, labels)`
batch it produces a conditional error-rate matrix [O, P]. -/
abbrev CondRateFn (O P D : ℕ) :=
  ∀ n : ℕ, WtM O P D → (Fin n → Fin D → ℚ) → (Fin P → Fin n → ℚ) → ErrM O P

/-- Sum of squared entries of one feature-dimension slice; comparing it
with `t * t` embeds the comparison `torch.norm(g, p=2, dim=-1) < t`
(both sides squared; the L2 norm is nonnegative, so for `t > 0` the two
comparisons agree). -/
def sumSq {D : ℕ} (v : Fin D → ℚ) : ℚ := ∑ d, v d * v d

/-- The fixed convergence threshold `0.025` of
`ReferenceClass.grad_update` (line 246). -/
def convThreshold : ℚ := 25 / 1000

/-- Embedding of `(torch.norm(proj_grads, p=2, dim=-1) < 0.025).sum()`
(line 246): the number of (observation, predictor) pairs whose gradient
slice has L2 norm below the threshold, as a sum of 0/1 indicators over
both axes. -/
def convergedCount {O P D : ℕ} (g : WtM O P D) : ℕ :=
  ∑ o : Fin O, ∑ p : Fin P,
    if sumSq (g o p) < convThreshold * convThreshold then 1 else 0

/-- Embedding of `ReferenceClass.grad_update` (lines 220-247): compute
`proj_grads = lin_model.proj_grad(X=features, y=labels.t())`, apply the
in-place additive update `lin_model.update(weights=-lr*proj_grads)`, and
set the progress counter `converged_bar.n` to the converged-pair count.
Returns the updated weights together with the counter value. -/
def grad_update {O P D n : ℕ} (lr : ℚ) (pg : ProjGradFn O P D) (w : WtM O P D)
    (labels : Fin n → Fin P → ℚ) (features : Fin n → Fin D → ℚ) :
    WtM O P D × ℕ :=
  let proj_grads := pg n w features (transposeM labels)
  let w' : WtM O P D := fun o p d => w o p d + (-lr * proj_grads o p d)
  (w', convergedCount proj_grads)

/-- Loop combinator embedding `for i in range(n)` with a loop body that
only reads and writes the state and has no break: the body is applied
`n` times, unconditionally. -/
def loop {α : Type} (f : α → α) : ℕ → α → α
  | 0, s => s
  | n + 1, s => loop f n (f s)

/-- Peeling the last iteration off the loop. -/
theorem loop_succ_back {α : Type} (f : α → α) (n : ℕ) (s : α) :
    loop f (n + 1) s = f (loop f n s) := by
  induction n generalizing s with
  | zero => rfl
  | succ n ih => rw [loop, ih, loop]

/-- State of the no-validation branch of `ReferenceClass.PGDOptim`
(lines 182-189): the live weights, plus the count of gradient updates
performed so far and the progress counter (`converged_bar.n`). -/
structure NoValState (O P D : ℕ) where
  weights : WtM O P D
  gradSteps : ℕ
  converged : ℕ

/-- One iteration of the no-validation loop: a single `grad_update`. -/
def noValStep {O P D nt : ℕ} (lr : ℚ) (pg : ProjGradFn O P D)
    (td : SplitData nt P D) (s : NoValState O P D) : NoValState O P D :=
  let r := grad_update lr pg s.weights td.labels td.features
  ⟨r.1, s.gradSteps + 1, r.2⟩

/-- State of the with-validation branch of `ReferenceClass.PGDOptim`
(lines 149-181): live weights, the best-so-far tracker pair, the count
of gradient updates performed so far, and the progress counter. -/
structure ValState (O P D : ℕ) where
  weights : WtM O P D
  minWeights : WtM O P D
  minErrors : ErrM O P
  gradSteps : ℕ
  converged : ℕ

/-- One iteration of the with-validation loop (lines 159-179):
`grad_update` on the training split, `conditional_one_rate` of the
updated weights on the validation split, then `pairwise_select` into the
best-so-far tracker. -/
def valStep {O P D nt nv : ℕ} (lr : ℚ) (pg : ProjGradFn O P D)
    (cr : CondRateFn O P D) (td : SplitData nt P D) (vd : SplitData nv P D)
    (s : ValState O P D) : ValState O P D :=
  let r := grad_update lr pg s.weights td.labels td.features
  let ce := cr nv r.1 vd.features (transposeM vd.labels)
  let ms := pairwise_select ce s.minErrors r.1 s.minWeights
  ⟨r.1, ms.1, ms.2, s.gradSteps + 1, r.2⟩

/-- Initial with-validation state: the observation tensor as initial
weights (the spec's LinearModel holds the weight tensor it is
constructed from), and the tracker seeded by `error_tracker` — all-zero
best weights and all-one best errors, here in unsqueezed [O, P, D] and
[O, P] form. -/
def initValState {O P D : ℕ} (obs : WtM O P D) : ValState O P D :=
  ⟨obs, fun _ _ _ => 0, fun _ _ => 1, 0, 0⟩

/-- Embedding of `ReferenceClass.PGDOptim` (lines 127-193): with a
validation split, run `num_iter` iterations of update + evaluate +
merge and rebuild the model from the best-so-far weights
(`LinearModel(min_weights)`); without one, run `num_iter` bare gradient
updates and return the final weights.  The result is the returned
model's weight tensor. -/
def PGDOptim {O P D nt nv : ℕ} (lr : ℚ) (num_iter : ℕ) (pg : ProjGradFn O P D)
    (cr : CondRateFn O P D) (td : SplitData nt P D)
    (vd : Option (SplitData nv P D)) (obs : WtM O P D) : WtM O P D :=
  match vd with
  | some v => (loop (valStep lr pg cr td v) num_iter (initValState obs)).minWeights
  | none => (loop (noValStep lr pg td) num_iter ⟨obs, 0, 0⟩).weights

/-- Helper: the best-so-far error component of one with-validation
iteration, written out. -/
theorem valStep_minErrors {O P D nt nv : ℕ} (lr : ℚ) (pg : ProjGradFn O P D)
    (cr : CondRateFn O P D) (td : SplitData nt P D) (vd : SplitData nv P D)
    (s : ValState O P D) :
    (valStep lr pg cr td vd s).minErrors =
      (pairwise_select
        (cr nv (grad_update lr pg s.weights td.labels td.features).1 vd.features
          (transposeM vd.labels))
        s.minErrors
        (grad_update lr pg s.weights td.labels td.features).1
        s.minWeights).2 := rfl

/-- Helper: the best-so-far weight component of one with-validation
iteration, written out. -/
theorem valStep_minWeights {O P D nt nv : ℕ} (lr : ℚ) (pg : ProjGradFn O P D)
    (cr : CondRateFn O P D) (td : SplitData nt P D) (vd : SplitData nv P D)
    (s : ValState O P D) :
    (valStep lr pg cr td vd s).minWeights =
      (pairwise_select
        (cr nv (grad_update lr pg s.weights td.labels td.features).1 vd.features
          (transposeM vd.labels))
        s.minErrors
        (grad_update lr pg s.weights td.labels td.features).1
        s.minWeights).1 := rfl

/-- C3: within one with-validation run, the best-so-far error is
elementwise non-increasing across successive `pairwise_select` merges:
for every (observation, predictor) pair, the error after `k + 1`
iterations is at most the error after `k` iterations — equivalently,
each merge returns an error at most the `min_error` passed in. -/
theorem best_error_monotone {O P D nt nv : ℕ} (lr : ℚ) (pg : ProjGradFn O P D)
    (cr : CondRateFn O P D) (td : SplitData nt P D) (vd : SplitData nv P D)
    (k : ℕ) (s : ValState O P D) (o : Fin O) (p : Fin P) :
    (loop (valStep lr pg cr td vd) (k + 1) s).minErrors o p ≤
      (loop (valStep lr pg cr td vd) k s).minErrors o p := by
  rw [loop_succ_back, valStep_minErrors]
  exact pairwise_select_error_le _ _ _ _ o p

/-- Concrete training/validation/evaluation split used for witnesses. -/
def sdW : SplitData 1 1 1 := ⟨fun _ _ => 1, fun _ _ => 1⟩

/-- Concrete projected-gradient collaborator used for witnesses: the
gradient equals the current weights. -/
def pgW : ProjGradFn 1 1 1 := fun _ w _ _ => w

/-- Concrete conditional-error collaborator used for witnesses: every
conditional error rate is 1. -/
def crW : CondRateFn 1 1 1 := fun _ _ _ _ => fun _ _ => 1

/-- Concrete observation tensor used for witnesses. -/
def obsW : WtM 1 1 1 := fun _ _ _ => 5

/-- Witness for C3 at one concrete iteration. -/
theorem best_error_monotone_witness :
    (loop (valStep 1 pgW crW sdW sdW) 1 (initValState obsW)).minErrors 0 0 ≤
      (loop (valStep 1 pgW crW sdW sdW) 0 (initValState obsW)).minErrors 0 0 :=
  best_error_monotone 1 pgW crW sdW sdW 0 (initValState obsW) 0 0

/-- C6: both branches of the PGD loop perform exactly `num_iter`
gradient-update iterations and then stop — for every number of
iterations, every initial state and arbitrary collaborator gradients,
the gradient-update count grows by exactly `num_iter`, so there is no
early stopping, no convergence-based exit, and the converged-pair
counter (carried in the state but never inspected by the loop) does not
gate the iteration count. -/
theorem pgd_runs_exactly_num_iter {O P D nt nv : ℕ} (lr : ℚ)
    (pg : ProjGradFn O P D) (cr : CondRateFn O P D) (td : SplitData nt P D)
    (vd : SplitData nv P D) (n : ℕ) (s : NoValState O P D) (t : ValState O P D) :
    (loop (noValStep lr pg td) n s).gradSteps = s.gradSteps + n ∧
      (loop (valStep lr pg cr td vd) n t).gradSteps = t.gradSteps + n := by
  induction n generalizing s t with
  | zero => exact ⟨rfl, rfl⟩
  | succ n ih =>
    rw [loop, loop]
    refine ⟨?_, ?_⟩
    · rw [(ih (noValStep lr pg td s) t).1]
      show s.gradSteps + 1 + n = s.gradSteps + (n + 1)
      omega
    · rw [(ih s (valStep lr pg cr td vd t)).2]
      show t.gradSteps + 1 + n = t.gradSteps + (n + 1)
      omega

/-- Witness for C6 at concrete collaborators and one iteration. -/
theorem pgd_runs_exactly_num_iter_witness :
    (loop (noValStep 1 pgW sdW) 3 ⟨obsW, 0, 0⟩).gradSteps = 0 + 3 ∧
      (loop (valStep 1 pgW crW sdW sdW) 3 (initValState obsW)).gradSteps = 0 + 3 :=
  pgd_runs_exactly_num_iter 1 pgW crW sdW sdW 3 ⟨obsW, 0, 0⟩ (initValState obsW)

/-- C8: one gradient-update step applies exactly the delta
`-lr * gradient` to the weights, where the gradient is the collaborator's
projected gradient at `(features, labels.t())`, and its only other
effect is to set the convergence counter to the number of (observation,
predictor) pairs whose gradient L2-norm over the feature dimension is
below `0.025` — i.e. whose squared norm is below `1/1600 = 0.025²`. -/
theorem grad_update_step {O P D n : ℕ} (lr : ℚ) (pg : ProjGradFn O P D)
    (w : WtM O P D) (labels : Fin n → Fin P → ℚ) (features : Fin n → Fin D → ℚ) :
    (grad_update lr pg w labels features).1 =
      (fun o p d => w o p d - lr * pg n w features (transposeM labels) o p d) ∧
      (grad_update lr pg w labels features).2 =
        (Finset.univ.filter fun op : Fin O × Fin P =>
          sumSq (pg n w features (transposeM labels) op.1 op.2) < (1 / 1600 : ℚ)).card := by
  constructor
  · funext o p d
    show w o p d + (-lr * pg n w features (transposeM labels) o p d) = _
    ring
  · show convergedCount (pg n w features (transposeM labels)) = _
    rw [Finset.card_filter, Fintype.sum_prod_type]
    unfold convergedCount
    have ht : convThreshold * convThreshold = (1 / 1600 : ℚ) := by
      norm_num [convThreshold]
    simp only [ht]

/-- Witness for C8 at concrete inputs. -/
theorem grad_update_step_witness :
    (grad_update 1 pgW obsW sdW.labels sdW.features).1 =
      (fun o p d => obsW o p d - 1 * pgW 1 obsW sdW.features (transposeM sdW.labels) o p d) ∧
      (grad_update 1 pgW obsW sdW.labels sdW.features).2 =
        (Finset.univ.filter fun op : Fin 1 × Fin 1 =>
          sumSq (pgW 1 obsW sdW.features (transposeM sdW.labels) op.1 op.2) < (1 / 1600 : ℚ)).card :=
  grad_update_step 1 pgW obsW sdW.labels sdW.features

/-- Helper: if the validation error computed at each of the first `n`
iterations is everywhere at least 1, the strict-less-than merge never
fires, so the tracker stays at its zero-weight / unit-error
initialization after `n` iterations. -/
theorem loop_val_tracker_unchanged {O P D nt nv : ℕ} (lr : ℚ)
    (pg : ProjGradFn O P D) (cr : CondRateFn O P D) (td : SplitData nt P D)
    (vd : SplitData nv P D) (obs : WtM O P D) (n : ℕ)
    (h : ∀ k, k < n → ∀ (o : Fin O) (p : Fin P),
      1 ≤ cr nv ((loop (valStep lr pg cr td vd) (k + 1) (initValState obs)).weights)
            vd.features (transposeM vd.labels) o p) :
    (loop (valStep lr pg cr td vd) n (initValState obs)).minWeights =
        (fun _ _ _ => (0 : ℚ)) ∧
      (loop (valStep lr pg cr td vd) n (initValState obs)).minErrors =
        (fun _ _ => (1 : ℚ)) := by
  induction n with
  | zero => exact ⟨rfl, rfl⟩
  | succ n ih =>
    obtain ⟨ihW, ihE⟩ := ih (fun k hk => h k (Nat.lt_succ_of_lt hk))
    have hw : (loop (valStep lr pg cr td vd) (n + 1) (initValState obs)).weights =
        (grad_update lr pg (loop (valStep lr pg cr td vd) n (initValState obs)).weights
          td.labels td.features).1 := by
      rw [loop_succ_back]; rfl
    have hce : ∀ (o : Fin O) (p : Fin P),
        1 ≤ cr nv (grad_update lr pg
              (loop (valStep lr pg cr td vd) n (initValState obs)).weights
              td.labels td.features).1 vd.features (transposeM vd.labels) o p := by
      intro o p
      have := h n (Nat.lt_succ_self n) o p
      rwa [hw] at this
    rw [loop_succ_back]
    constructor
    · rw [valStep_minWeights]
      funext o p d
      unfold pairwise_select
      have hnot : ¬ (cr nv (grad_update lr pg
            (loop (valStep lr pg cr td vd) n (initValState obs)).weights
            td.labels td.features).1 vd.features (transposeM vd.labels) o p <
          (loop (valStep lr pg cr td vd) n (initValState obs)).minErrors o p) := by
        rw [ihE]
        exact not_lt.mpr (hce o p)
      simp [hnot, b2q, congrFun (congrFun (congrFun ihW o) p) d]
    · rw [valStep_minErrors]
      funext o p
      unfold pairwise_select
      have hnot : ¬ (cr nv (grad_update lr pg
            (loop (valStep lr pg cr td vd) n (initValState obs)).weights
            td.labels td.features).1 vd.features (transposeM vd.labels) o p <
          (loop (valStep lr pg cr td vd) n (initValState obs)).minErrors o p) := by
        rw [ihE]
        exact not_lt.mpr (hce o p)
      simp [hnot, b2q, congrFun (congrFun ihE o) p]
      simp [hce o p, not_lt.mpr (hce o p)]

/-- C10: in with-validation mode, if at every iteration the validation
conditional error of every (observation, predictor) pair is at least 1
— never strictly below the all-ones sentinel — then the strict merge
never replaces any tracker entry, and the model returned by the
optimization loop is the unchanged zero-initialized tracker weights,
not any gradient iterate. -/
theorem pgd_val_zero_model {O P D nt nv : ℕ} (lr : ℚ) (pg : ProjGradFn O P D)
    (cr : CondRateFn O P D) (td : SplitData nt P D) (vd : SplitData nv P D)
    (obs : WtM O P D) (n : ℕ)
    (h : ∀ k, k < n → ∀ (o : Fin O) (p : Fin P),
      1 ≤ cr nv ((loop (valStep lr pg cr td vd) (k + 1) (initValState obs)).weights)
            vd.features (transposeM vd.labels) o p) :
    PGDOptim lr n pg cr td (some vd) obs = (fun _ _ _ => (0 : ℚ)) ∧
      (loop (valStep lr pg cr td vd) n (initValState obs)).minErrors =
        (fun _ _ => (1 : ℚ)) :=
  loop_val_tracker_unchanged lr pg cr td vd obs n h

/-- Witness for C10: with a collaborator whose conditional error is
constantly 1, the returned model is the all-zero weight tensor. -/
theorem pgd_val_zero_model_witness :
    PGDOptim 1 2 pgW crW sdW (some sdW) obsW = (fun _ _ _ => (0 : ℚ)) ∧
      (loop (valStep 1 pgW crW sdW sdW) 2 (initValState obsW)).minErrors =
        (fun _ _ => (1 : ℚ)) :=
  pgd_val_zero_model 1 pgW crW sdW sdW obsW 2
    (fun _ _ _ _ => le_refl 1)

/-- Running first-occurrence argmin over the indices `0 .. k` of a row:
the incumbent is replaced only on a strict improvement, which is the
documented tie behavior of `torch.min(..., dim=1)` (the spec relies on
it: "ties broken by first-occurrence").  Modelled from the spec for the
external tensor-library reduction. -/
def argminUpto {m : ℕ} (f : Fin (m + 1) → ℚ) : ℕ → Fin (m + 1)
  | 0 => ⟨0, Nat.succ_pos m⟩
  | k + 1 =>
    if h : k + 1 < m + 1 then
      if f ⟨k + 1, h⟩ < f (argminUpto f k) then ⟨k + 1, h⟩ else argminUpto f k
    else argminUpto f k

/-- Index component of `torch.min(errors, dim=1)` for one row. -/
def argminRow {m : ℕ} (f : Fin (m + 1) → ℚ) : Fin (m + 1) := argminUpto f m

/-- Running minimum over the indices `0 .. k` of a row. -/
def minRowUpto {m : ℕ} (f : Fin (m + 1) → ℚ) : ℕ → ℚ
  | 0 => f ⟨0, Nat.succ_pos m⟩
  | k + 1 =>
    if h : k + 1 < m + 1 then
      if f ⟨k + 1, h⟩ < minRowUpto f k then f ⟨k + 1, h⟩ else minRowUpto f k
    else minRowUpto f k

/-- Value component of `torch.min(errors, dim=1)` for one row. -/
def minRow {m : ℕ} (f : Fin (m + 1) → ℚ) : ℚ := minRowUpto f m

/-- Helper: the running argmin never exceeds the scan bound. -/
theorem argminUpto_le {m : ℕ} (f : Fin (m + 1) → ℚ) (k : ℕ) :
    (argminUpto f k : ℕ) ≤ k := by
  induction k with
  | zero => exact le_refl 0
  | succ k ih =>
    unfold argminUpto
    split
    · split
      · exact le_refl _
      · exact Nat.le_succ_of_le ih
    · exact Nat.le_succ_of_le ih

/-- Helper: the running minimum is a lower bound on all scanned entries. -/
theorem argminUpto_min {m : ℕ} (f : Fin (m + 1) → ℚ) (k : ℕ) :
    ∀ i : Fin (m + 1), (i : ℕ) ≤ k → f (argminUpto f k) ≤ f i := by
  induction k with
  | zero =>
    intro i hi
    have : i = ⟨0, Nat.succ_pos m⟩ := Fin.ext (Nat.le_zero.mp hi)
    rw [this]
    exact le_refl _
  | succ k ih =>
    intro i hi
    unfold argminUpto
    by_cases h : k + 1 < m + 1
    · rw [dif_pos h]
      by_cases hlt : f ⟨k + 1, h⟩ < f (argminUpto f k)
      · rw [if_pos hlt]
        rcases Nat.lt_succ_iff_lt_or_eq.mp (Nat.lt_succ_of_le hi) with hik | hik
        · exact le_of_lt (lt_of_lt_of_le hlt (ih i (Nat.lt_succ_iff.mp hik)))
        · have : i = ⟨k + 1, h⟩ := Fin.ext hik
          rw [this]
      · rw [if_neg hlt]
        rcases Nat.lt_succ_iff_lt_or_eq.mp (Nat.lt_succ_of_le hi) with hik | hik
        · exact ih i (Nat.lt_succ_iff.mp hik)
        · have : i = ⟨k + 1, h⟩ := Fin.ext hik
          rw [this]
          exact le_of_not_lt hlt
    · rw [dif_neg h]
      have : (i : ℕ) ≤ k := by
        have := i.isLt
        omega
      exact ih i this

/-- Helper: every index strictly before the running argmin has a
strictly larger value — the scan keeps the first occurrence of the
minimum. -/
theorem argminUpto_first {m : ℕ} (f : Fin (m + 1) → ℚ) (k : ℕ) :
    ∀ i : Fin (m + 1), (i : ℕ) < (argminUpto f k : ℕ) →
      f (argminUpto f k) < f i := by
  induction k with
  | zero =>
    intro i hi
    exact absurd hi (by simp [argminUpto])
  | succ k ih =>
    intro i hi
    unfold argminUpto at hi ⊢
    by_cases h : k + 1 < m + 1
    · rw [dif_pos h] at hi ⊢
      by_cases hlt : f ⟨k + 1, h⟩ < f (argminUpto f k)
      · rw [if_pos hlt] at hi ⊢
        have hik : (i : ℕ) ≤ k := Nat.lt_succ_iff.mp hi
        exact lt_of_lt_of_le hlt (argminUpto_min f k i hik)
      · rw [if_neg hlt] at hi ⊢
        exact ih i hi
    · rw [dif_neg h] at hi ⊢
      exact ih i hi

/-- Helper: the running minimum value equals the value at the running
argmin. -/
theorem minRowUpto_eq {m : ℕ} (f : Fin (m + 1) → ℚ) (k : ℕ) :
    minRowUpto f k = f (argminUpto f k) := by
  induction k with
  | zero => rfl
  | succ k ih =>
    unfold minRowUpto argminUpto
    by_cases h : k + 1 < m + 1
    · rw [dif_pos h, dif_pos h, ih]
      by_cases hlt : f ⟨k + 1, h⟩ < f (argminUpto f k)
      · rw [if_pos hlt, if_pos hlt]
      · rw [if_neg hlt, if_neg hlt]
    · rw [dif_neg h, dif_neg h, ih]

/-- The `ReferenceClass` object after construction: the diagnostic
header, the configured iteration count and learning rate, and the three
dataset splits produced at construction (`dataset_val = none` in
no-validation mode).  The compute device is immaterial to the values
computed and is omitted. -/
structure RC (P D nt nv ne : ℕ) where
  header : String
  num_iter : ℕ
  lr : ℚ
  dataset_train : SplitData nt P D
  dataset_val : Option (SplitData nv P D)
  dataset_eval : SplitData ne P D

/-- The eval-split conditional error rates of the learned selectors:
`selectors.conditional_one_rate(X=features_eval, y=labels_eval.t())`
(reference_class.py lines 113-119). -/
def evalErrors {O Pm D nt nv ne : ℕ} (rc : RC (Pm + 1) D nt nv ne)
    (pg : ProjGradFn O (Pm + 1) D) (cr : CondRateFn O (Pm + 1) D)
    (obs : WtM O (Pm + 1) D) : ErrM O (Pm + 1) :=
  cr ne (PGDOptim rc.lr rc.num_iter pg cr rc.dataset_train rc.dataset_val obs)
    rc.dataset_eval.features (transposeM rc.dataset_eval.labels)

/-- Embedding of `ReferenceClass.forward` (lines 71-125): run the PGD
optimizer from the observation tensor (the LinearModel built from the
observations holds them as its weight tensor), evaluate the learned
selectors on the eval split, take `torch.min(..., dim=1)` to get
`(min_val, min_ids)`, and reduce the selectors by gathering the row at
`min_ids` along the predictor axis (`selectors.reduce(ids=min_ids,
dim=1)`, modelled from the spec's collaborator contract "reduce(ids,
dim) -> tensor with that axis collapsed by gather"). -/
def forward {O Pm D nt nv ne : ℕ} (rc : RC (Pm + 1) D nt nv ne)
    (pg : ProjGradFn O (Pm + 1) D) (cr : CondRateFn O (Pm + 1) D)
    (obs : WtM O (Pm + 1) D) :
    (Fin O → ℚ) × (Fin O → Fin (Pm + 1)) × (Fin O → Fin D → ℚ) :=
  let selectors := PGDOptim rc.lr rc.num_iter pg cr rc.dataset_train rc.dataset_val obs
  let errors := cr ne selectors rc.dataset_eval.features (transposeM rc.dataset_eval.labels)
  (fun o => minRow (errors o),
   fun o => argminRow (errors o),
   fun o d => selectors o (argminRow (errors o)) d)

/-- C1: for every observation `o`, the returned `min_val o` is the
minimum over the predictor axis of the eval-split conditional error
rates (it is attained at `min_ids o` and lower-bounds the whole row),
`min_ids o` is the argmin with ties broken by the lowest index (any
predictor attaining the minimum has index at least `min_ids o`), and
the reduced model's row `o` is the selector weight vector at predictor
index `min_ids o`. -/
theorem forward_reduction {O Pm D nt nv ne : ℕ} (rc : RC (Pm + 1) D nt nv ne)
    (pg : ProjGradFn O (Pm + 1) D) (cr : CondRateFn O (Pm + 1) D)
    (obs : WtM O (Pm + 1) D) (o : Fin O) :
    (forward rc pg cr obs).1 o = evalErrors rc pg cr obs o ((forward rc pg cr obs).2.1 o) ∧
      (∀ p, (forward rc pg cr obs).1 o ≤ evalErrors rc pg cr obs o p) ∧
      (∀ p, evalErrors rc pg cr obs o p = (forward rc pg cr obs).1 o →
        (forward rc pg cr obs).2.1 o ≤ p) ∧
      (∀ d, (forward rc pg cr obs).2.2 o d =
        PGDOptim rc.lr rc.num_iter pg cr rc.dataset_train rc.dataset_val obs o
          ((forward rc pg cr obs).2.1 o) d) := by
  refine ⟨?_, ?_, ?_, ?_⟩
  · show minRow (evalErrors rc pg cr obs o) =
      evalErrors rc pg cr obs o (argminRow (evalErrors rc pg cr obs o))
    exact minRowUpto_eq _ Pm
  · intro p
    show minRow (evalErrors rc pg cr obs o) ≤ evalErrors rc pg cr obs o p
    rw [minRow, minRowUpto_eq]
    exact argminUpto_min _ Pm p (Nat.lt_succ_iff.mp p.isLt)
  · intro p hp
    show argminRow (evalErrors rc pg cr obs o) ≤ p
    by_contra hcon
    have hlt : (p : ℕ) < (argminRow (evalErrors rc pg cr obs o) : ℕ) :=
      Fin.lt_iff_val_lt_val.mp (lt_of_not_le hcon)
    have h1 := argminUpto_first (evalErrors rc pg cr obs o) Pm p hlt
    have h2 : evalErrors rc pg cr obs o p =
        minRowUpto (evalErrors rc pg cr obs o) Pm := hp
    rw [minRowUpto_eq] at h2
    rw [h2] at h1
    exact absurd h1 (lt_irrefl _)
  · intro d
    rfl

/-- Concrete `ReferenceClass` instance used for the C1 witness. -/
def rcC1 : RC 1 1 1 1 1 := ⟨"stage", 1, 1, sdW, some sdW, sdW⟩

/-- Witness for C1: the lower-bound and reduction conjuncts at a
concrete instance and observation. -/
theorem forward_reduction_witness :
    (∀ p, (forward rcC1 pgW crW obsW).1 0 ≤ evalErrors rcC1 pgW crW obsW 0 p) ∧
      (∀ d, (forward rcC1 pgW crW obsW).2.2 0 d =
        PGDOptim rcC1.lr rcC1.num_iter pgW crW rcC1.dataset_train rcC1.dataset_val obsW 0
          ((forward rcC1 pgW crW obsW).2.1 0) d) :=
  ⟨(forward_reduction rcC1 pgW crW obsW 0).2.1,
   (forward_reduction rcC1 pgW crW obsW 0).2.2.2⟩

/-- C9: `forward` is deterministic given its inputs once the dataset
partition is fixed — two constructed objects that agree on `num_iter`,
`lr` and the train/val/eval split contents produce identical
`(min_val, min_ids, reduced_model)` triples on the same observation
tensor and collaborators, even if other construction inputs (the
diagnostic header) differ; there is no hidden state or randomness in
the call itself. -/
theorem forward_deterministic {O Pm D nt nv ne : ℕ}
    (rc1 rc2 : RC (Pm + 1) D nt nv ne) (pg : ProjGradFn O (Pm + 1) D)
    (cr : CondRateFn O (Pm + 1) D) (obs : WtM O (Pm + 1) D)
    (h1 : rc1.num_iter = rc2.num_iter) (h2 : rc1.lr = rc2.lr)
    (h3 : rc1.dataset_train = rc2.dataset_train)
    (h4 : rc1.dataset_val = rc2.dataset_val)
    (h5 : rc1.dataset_eval = rc2.dataset_eval) :
    forward rc1 pg cr obs = forward rc2 pg cr obs := by
  cases rc1
  cases rc2
  simp only at h1 h2 h3 h4 h5
  subst h1
  subst h2
  subst h3
  subst h4
  subst h5
  rfl

/-- Concrete instance differing from `rcC1` only in the header. -/
def rcC9 : RC 1 1 1 1 1 := ⟨"other stage", 1, 1, sdW, some sdW, sdW⟩

/-- Witness for C9: identical outputs for two instances that differ only
in the diagnostic header. -/
theorem forward_deterministic_witness :
    forward rcC1 pgW crW obsW = forward rcC9 pgW crW obsW :=
  forward_deterministic rcC1 rcC9 pgW crW obsW rfl rfl rfl rfl rfl

/-- Result of dataset partitioning at construction (lines 52-67):
either `(train, eval)` with no validation split, or
`(train, val, eval)`.  The payloads are the subset sizes passed to
`random_split`. -/
inductive SplitSizes where
  | trainEval : ℤ → ℤ → SplitSizes
  | trainValEval : ℤ → ℤ → ℤ → SplitSizes
deriving DecidableEq

/-- The list of subset sizes of a partition, in the order they are
passed to `random_split`. -/
def SplitSizes.sizes : SplitSizes → List ℤ
  | .trainEval t e => [t, e]
  | .trainValEval t v e => [t, v, e]

/-- Embedding of the validation and partitioning logic of
`ReferenceClass.__init__` (lines 49-69) for a dataset of size `N`:
raise if the fractions sum to more than 1; otherwise compute
`subset_sizes = [int(N * frac) for frac in subset_fracs]` (for the
nonnegative products in scope, Python `int()` truncation is the floor)
and dispatch on the arity — one fraction gives `(train, eval)`, two
give `(train, val, eval)`, anything else raises.  The last subset size
is `N - sum(subset_sizes)`.  An error result carries no partition: the
constructor aborts before `random_split` or any optimization work. -/
def refClassInit (N : ℕ) (fracs : List ℚ) : Except String SplitSizes :=
  if 1 < fracs.sum then
    Except.error "sum of fractions of subsets exceed 1."
  else
    match fracs with
    | [f1] =>
      Except.ok (SplitSizes.trainEval ⌊(N : ℚ) * f1⌋ ((N : ℤ) - ⌊(N : ℚ) * f1⌋))
    | [f1, f2] =>
      Except.ok (SplitSizes.trainValEval ⌊(N : ℚ) * f1⌋ ⌊(N : ℚ) * f2⌋
        ((N : ℤ) - (⌊(N : ℚ) * f1⌋ + ⌊(N : ℚ) * f2⌋)))
    | _ => Except.error "Invalid number of subset sizes."

/-- C4: construction raises a configuration error if and only if the
fractions sum to more than 1 or the fraction list has length other
than 1 or 2; equivalently it succeeds exactly when the sum is at most 1
and the length is 1 or 2.  When it raises, the error result carries no
partition — no dataset splitting or optimization work has happened
(the sum check precedes the size computation, and `random_split` is
reached only on the two success arities). -/
theorem refClassInit_raises_iff (N : ℕ) (fracs : List ℚ) :
    (refClassInit N fracs).isOk = true ↔
      (fracs.sum ≤ 1 ∧ (fracs.length = 1 ∨ fracs.length = 2)) := by
  unfold refClassInit
  by_cases h : 1 < fracs.sum
  · rw [if_pos h]
    simp [Except.isOk, Except.toBool, not_le.mpr h]
  · rw [if_neg h]
    match fracs with
    | [] => simp [Except.isOk, Except.toBool]
    | [f1] =>
      have h' : f1 ≤ 1 := by simpa using not_lt.mp h
      simp [Except.isOk, Except.toBool, h']
    | [f1, f2] =>
      have h' : f1 + f2 ≤ 1 := by simpa using not_lt.mp h
      simp [Except.isOk, Except.toBool, h']
    | f1 :: f2 :: f3 :: l => simp [Except.isOk, Except.toBool]

/-- Witness for C4: a valid singleton fraction list is accepted. -/
theorem refClassInit_raises_iff_witness :
    (refClassInit 10 [(1 : ℚ) / 2]).isOk = true :=
  (refClassInit_raises_iff 10 [(1 : ℚ) / 2]).mpr (by norm_num)

/-- C5: for a valid fraction list (nonnegative entries summing to at
most 1) of length 1 or 2 and dataset size `N`, construction computes
subset sizes `floor(N * f_i)` for the given fractions and assigns the
remainder `N - sum` to the eval subset; the produced sizes are
nonnegative and sum exactly to `N`; one fraction yields `(train, eval)`
with no validation split and two fractions yield
`(train, val, eval)`. -/
theorem refClassInit_partition (N : ℕ) (fracs : List ℚ)
    (hf : ∀ f ∈ fracs, 0 ≤ f) (hs : fracs.sum ≤ 1) :
    (∀ f1, fracs = [f1] →
      refClassInit N fracs =
          Except.ok (SplitSizes.trainEval ⌊(N : ℚ) * f1⌋ ((N : ℤ) - ⌊(N : ℚ) * f1⌋)) ∧
        (SplitSizes.trainEval ⌊(N : ℚ) * f1⌋ ((N : ℤ) - ⌊(N : ℚ) * f1⌋)).sizes.sum = N ∧
        ∀ z ∈ (SplitSizes.trainEval ⌊(N : ℚ) * f1⌋ ((N : ℤ) - ⌊(N : ℚ) * f1⌋)).sizes, 0 ≤ z) ∧
    (∀ f1 f2, fracs = [f1, f2] →
      refClassInit N fracs =
          Except.ok (SplitSizes.trainValEval ⌊(N : ℚ) * f1⌋ ⌊(N : ℚ) * f2⌋
            ((N : ℤ) - (⌊(N : ℚ) * f1⌋ + ⌊(N : ℚ) * f2⌋))) ∧
        (SplitSizes.trainValEval ⌊(N : ℚ) * f1⌋ ⌊(N : ℚ) * f2⌋
          ((N : ℤ) - (⌊(N : ℚ) * f1⌋ + ⌊(N : ℚ) * f2⌋))).sizes.sum = N ∧
        ∀ z ∈ (SplitSizes.trainValEval ⌊(N : ℚ) * f1⌋ ⌊(N : ℚ) * f2⌋
          ((N : ℤ) - (⌊(N : ℚ) * f1⌋ + ⌊(N : ℚ) * f2⌋))).sizes, 0 ≤ z) := by
  constructor
  · intro f1 hfr
    subst hfr
    have h1 : (0 : ℚ) ≤ f1 := hf f1 (by simp)
    have hs1 : f1 ≤ 1 := by simpa using hs
    have hfl : (0 : ℤ) ≤ ⌊(N : ℚ) * f1⌋ :=
      Int.floor_nonneg.mpr (mul_nonneg (Nat.cast_nonneg N) h1)
    have hup : ⌊(N : ℚ) * f1⌋ ≤ (N : ℤ) := by
      rw [Int.floor_le_iff]
      have : (N : ℚ) * f1 ≤ (N : ℚ) * 1 :=
        mul_le_mul_of_nonneg_left hs1 (Nat.cast_nonneg N)
      push_cast
      linarith
    refine ⟨?_, ?_, ?_⟩
    · unfold refClassInit
      rw [if_neg (not_lt.mpr (by simpa using hs))]
    · simp [SplitSizes.sizes]
    · intro z hz
      simp [SplitSizes.sizes] at hz
      rcases hz with hz | hz
      · rw [hz]; exact hfl
      · rw [hz]; omega
  · intro f1 f2 hfr
    subst hfr
    have h1 : (0 : ℚ) ≤ f1 := hf f1 (by simp)
    have h2 : (0 : ℚ) ≤ f2 := hf f2 (by simp)
    have hs2 : f1 + f2 ≤ 1 := by simpa using hs
    have hfl1 : (0 : ℤ) ≤ ⌊(N : ℚ) * f1⌋ :=
      Int.floor_nonneg.mpr (mul_nonneg (Nat.cast_nonneg N) h1)
    have hfl2 : (0 : ℤ) ≤ ⌊(N : ℚ) * f2⌋ :=
      Int.floor_nonneg.mpr (mul_nonneg (Nat.cast_nonneg N) h2)
    have hup : ⌊(N : ℚ) * f1⌋ + ⌊(N : ℚ) * f2⌋ ≤ (N : ℤ) := by
      have hq : ((⌊(N : ℚ) * f1⌋ + ⌊(N : ℚ) * f2⌋ : ℤ) : ℚ) ≤ (N : ℚ) := by
        push_cast
        have ha := Int.floor_le ((N : ℚ) * f1)
        have hb := Int.floor_le ((N : ℚ) * f2)
        have hc : (N : ℚ) * f1 + (N : ℚ) * f2 ≤ (N : ℚ) := by
          have : (N : ℚ) * (f1 + f2) ≤ (N : ℚ) * 1 :=
            mul_le_mul_of_nonneg_left hs2 (Nat.cast_nonneg N)
          linarith [this]
        linarith
      exact_mod_cast hq
    refine ⟨?_, ?_, ?_⟩
    · unfold refClassInit
      rw [if_neg (not_lt.mpr (by simpa using hs))]
    · simp [SplitSizes.sizes]
      ring
    · intro z hz
      simp [SplitSizes.sizes] at hz
      rcases hz with hz | hz | hz
      · rw [hz]; exact hfl1
      · rw [hz]; exact hfl2
      · rw [hz]; omega

/-- Witness for C5 at fractions `[1/2, 1/4]` and `N = 10`: sizes
`(5, 2, 3)` summing to 10. -/
theorem refClassInit_partition_witness :
    refClassInit 10 [(1 : ℚ) / 2, (1 : ℚ) / 4] =
        Except.ok (SplitSizes.trainValEval 5 2 3) ∧
      (SplitSizes.trainValEval (5 : ℤ) 2 3).sizes.sum = 10 := by
  have h := (refClassInit_partition 10 [(1 : ℚ) / 2, (1 : ℚ) / 4]
    (by intro f hf; simp at hf; rcases hf with h | h <;> rw [h] <;> norm_num)
    (by norm_num)).2 ((1 : ℚ) / 2) ((1 : ℚ) / 4) rfl
  constructor
  · have h1 := h.1
    norm_num at h1
    exact h1
  · decide

/-- Constant-fill tensor: a tensor all of whose entries hold the same
rational, recorded by its shape and that fill value.  `torch.zeros` and
`torch.ones` produce such tensors, and `.squeeze()` only reshapes, so
this suffices to embed `error_tracker` exactly. -/
structure ConstTensor where
  shape : List ℕ
  fill : ℚ
deriving DecidableEq

/-- Embedding of `torch.zeros(shape)`. -/
def tzeros (s : List ℕ) : ConstTensor := ⟨s, 0⟩

/-- Embedding of `torch.ones(shape)`. -/
def tones (s : List ℕ) : ConstTensor := ⟨s, 1⟩

/-- Embedding of `Tensor.squeeze()` with no arguments: remove every
dimension of size 1, wherever it occurs. -/
def squeeze (t : ConstTensor) : ConstTensor :=
  ⟨t.shape.filter (fun d => d ≠ 1), t.fill⟩

/-- Embedding of `ReferenceClass.error_tracker` (lines 195-218):
`(torch.zeros(weight_shape).squeeze(), torch.ones(weight_shape[:-1]).squeeze())`
(the `.to(device)` move does not change values).  Returns
`(best_weight, best_error)`. -/
def error_tracker (weight_shape : List ℕ) : ConstTensor × ConstTensor :=
  (squeeze (tzeros weight_shape), squeeze (tones weight_shape.dropLast))

/-- Collapse only the trailing run of singleton dimensions — the
operation the spec's words "trailing singleton dims collapsed" describe
for the best-weight tensor.  Modelled from the spec, for comparison
with the source's `squeeze`. -/
def dropTrailingOnes (s : List ℕ) : List ℕ :=
  (s.reverse.dropWhile (fun d => d = 1)).reverse

/-- Counterexample for C7 as stated: at `weight_shape = [1, 2, 3]`,
`squeeze` removes the leading singleton dimension, so the returned
best-weight shape is `[2, 3]`, while collapsing only trailing singleton
dimensions would leave `[1, 2, 3]`; likewise the best-error tensor is
squeezed to shape `[2]`, not the claimed `weight_shape[:-1] = [1, 2]`. -/
theorem error_tracker_counterexample :
    (error_tracker [1, 2, 3]).1.shape = [2, 3] ∧
      dropTrailingOnes [1, 2, 3] = [1, 2, 3] ∧
      ¬ ([2, 3] : List ℕ) = [1, 2, 3] ∧
      (error_tracker [1, 2, 3]).2.shape = [2] ∧
      ¬ ([2] : List ℕ) = [1, 2] := by
  refine ⟨rfl, rfl, by decide, rfl, by decide⟩

/-- C7 (amended): for every weight shape, `error_tracker` returns a
best-weight tensor that is all-zero with every singleton dimension
removed (torch `squeeze` collapses all size-1 dimensions, not only
trailing ones), and a best-error tensor that is all-one with shape
`weight_shape[:-1]` likewise stripped of every singleton dimension; the
fill value 1 is an upper bound for any error in `[0, 1]`, making it the
worst-case sentinel. -/
theorem error_tracker_shapes (weight_shape : List ℕ) :
    (error_tracker weight_shape).1 =
        ⟨weight_shape.filter (fun d => d ≠ 1), 0⟩ ∧
      (error_tracker weight_shape).2 =
        ⟨weight_shape.dropLast.filter (fun d => d ≠ 1), 1⟩ ∧
      ∀ e ∈ Set.Icc (0 : ℚ) 1, e ≤ (error_tracker weight_shape).2.fill :=
  ⟨rfl, rfl, fun _ he => he.2⟩

/-- Witness for C7 (amended) at a concrete shape. -/
theorem error_tracker_shapes_witness :
    (error_tracker [2, 1, 3]).1 = ⟨[2, 3], 0⟩ ∧
      (error_tracker [2, 1, 3]).2 = ⟨[2], 1⟩ ∧
      (1 / 2 : ℚ) ≤ (error_tracker [2, 1, 3]).2.fill :=
  ⟨((error_tracker_shapes [2, 1, 3]).1).trans (by decide),
   ((error_tracker_shapes [2, 1, 3]).2.1).trans (by decide),
   (error_tracker_shapes [2, 1, 3]).2.2 (1 / 2) (by norm_num)⟩

end RefClass
